import Mathlib

/-!
Verification model of the `ixmp` scenario-reporting graph engine
(`ixmp/reporting/__init__.py`).

The `Reporter` holds a mutable dict `self.graph` mapping labels (strings or
`Key` objects) to computations.  `add`, `finalize` and `disaggregate` mutate
the dict; `get` evaluates a label through the dask graph executor.

Python dicts are modelled as association lists with first-match lookup and
in-place overwrite, which reproduces dict insertion-order semantics.
Python values appearing in the graph are modelled by the inductive `Obj`;
callables are modelled as named opaque functions whose application builds a
symbolic `Obj.app` value, so that executor theorems do not depend on what a
particular operation computes.
-/

set_option maxHeartbeats 1000000

/-- Modelled from the spec: the class `ixmp.reporting.utils.Key` is imported by
the reporting module but its file is not part of the sources; §3 of the spec
describes it as a name plus an ordered sequence of dimension labels. -/
structure Key where
  name : String
  dims : List String
deriving DecidableEq, Repr

/-- A registry label: the Python dict keys the Reporter actually uses are
strings (e.g. `'scenario'`, `'file:...'`) or `Key` objects. -/
inductive Label where
  | str : String → Label
  | key : Key → Label
deriving DecidableEq, Repr

/-- A Python value stored in (or produced from) the reporting graph:
strings, numbers, `Key` objects, callables (named), task tuples, lists,
and symbolic results of applying a named callable to arguments. -/
inductive Obj where
  | str : String → Obj
  | int : Int → Obj
  | key : Key → Obj
  | func : String → Obj
  | tuple : List Obj → Obj
  | listv : List Obj → Obj
  | app : String → List Obj → Obj

/-- Errors raised by the engine, named after the taxonomy of spec §7.
In the Python source `duplicateKeyError` is the `KeyError` raised by
`Reporter.add`, and `methodNotFoundError` / `invalidMethodError` are the two
distinct `ValueError` sites in `Reporter.disaggregate`.  `cycleError` is the
graph-error raised when alias resolution revisits a label, and
`depthExceeded` bounds task recursion so the model is total. -/
inductive Err where
  | duplicateKeyError
  | formatError
  | methodNotFoundError
  | invalidMethodError
  | cycleError
  | depthExceeded
deriving DecidableEq, Repr

/-- The task registry: `Reporter.graph`, a Python dict from labels to
computations, as an association list (first match wins on lookup). -/
abbrev Graph : Type := List (Label × Obj)

/-- Dict lookup: the value bound to `k`, if any. -/
def lookupG : Graph → Label → Option Obj
  | [], _ => none
  | (k', v) :: rest, k => if k' = k then some v else lookupG rest k

/-- Dict assignment `g[k] = v`: overwrite in place when present (keeping the
original insertion position, as Python dicts do), else append. -/
def updateG : Graph → Label → Obj → Graph
  | [], k, v => [(k, v)]
  | (k', v') :: rest, k, v =>
    if k' = k then (k, v) :: rest else (k', v') :: updateG rest k v

/-- The labels bound in the registry, in insertion order. -/
def keysOf (g : Graph) : List Label := g.map Prod.fst

/-- Number of distinct bound labels not yet on the visited list; the
decreasing measure for alias chasing. -/
def boundLeft (g : Graph) (visited : List Label) : Nat :=
  ((keysOf g).toFinset \ visited.toFinset).card

/-- The Python object denoted by a label. -/
def labObj : Label → Obj
  | .str s => .str s
  | .key k => .key k

/-- A graph value is label-like exactly when it is a string or a `Key`
(the hashables the Reporter uses as dict keys). -/
def objAsLabel : Obj → Option Label
  | .str s => some (.str s)
  | .key k => some (.key k)
  | _ => none

/-- Python `callable(...)` on our value model: only named functions. -/
def callableB : Obj → Bool
  | .func _ => true
  | _ => false

/-- Whether a value is a Python string. -/
def objIsStr : Obj → Bool
  | .str _ => true
  | _ => false

/-- Application of a named callable to resolved arguments, as a symbolic
value: the engine treats operations as opaque. -/
def applyF : Obj → List Obj → Obj
  | .func n, rs => .app n rs
  | f, rs => .tuple (f :: rs)

/-- Split a character list at the first occurrence of `sep`; the second
component is `none` when `sep` does not occur. -/
def breakOnChar (sep : Char) : List Char → List Char × Option (List Char)
  | [] => ([], none)
  | c :: rest =>
    if c = sep then ([], some rest)
    else
      let r := breakOnChar sep rest
      (c :: r.1, r.2)

/-- Split a character list on every occurrence of `sep`. -/
def splitOnChar (sep : Char) : List Char → List (List Char)
  | [] => [[]]
  | c :: rest =>
    if c = sep then [] :: splitOnChar sep rest
    else
      match splitOnChar sep rest with
      | [] => [[c]]
      | w :: ws => (c :: w) :: ws

/-- Modelled from the spec: `Key` parsing (§4.1) — split on the first `:`;
if absent, dims are empty; the dims portion splits on `-`. -/
def parseKey (s : String) : Key :=
  match breakOnChar ':' s.data with
  | (nameCs, none) => ⟨⟨nameCs⟩, []⟩
  | (nameCs, some dimsCs) => ⟨⟨nameCs⟩, (splitOnChar '-' dimsCs).map (fun cs => ⟨cs⟩)⟩

/-- Modelled from the spec: `Key.from_str_or_key` (the `utils` module is not
in the sources).  Per §4.1 a `Key` argument is passed through unchanged (the
same object), a string is parsed, and anything else fails with a
FormatError. -/
def from_str_or_key : Obj → Except Err Key
  | .key k => .ok k
  | .str s => .ok (parseKey s)
  | _ => .error .formatError

/-- Modelled from the spec: attribute lookup on the `ixmp.reporting.
computations` module (its file is not in the sources).  Per §6 and the
imports in the reporting module the catalogue holds `disaggregate_shares`
and `load_file`. -/
def getattr_computations (attr : String) : Option Obj :=
  if attr = "disaggregate_shares" then some (.func "disaggregate_shares")
  else if attr = "load_file" then some (.func "load_file")
  else none

/-- Method resolution in `Reporter.disaggregate`: a string is looked up as
`disaggregate_<method>` on the computations module (raising the first
`ValueError` — the spec's MethodNotFoundError — when absent), then the
result must be callable (else the second `ValueError` — the spec's
InvalidMethodError). -/
def resolve_method : Obj → Except Err Obj
  | .str s =>
    match getattr_computations ("disaggregate_" ++ s) with
    | none => .error .methodNotFoundError
    | some f => if callableB f then .ok f else .error .invalidMethodError
  | m => if callableB m then .ok m else .error .invalidMethodError

/-- `Reporter.add(key, computation, strict)`: raises `KeyError` (the spec's
DuplicateKeyError) when `strict` and the key is already bound, else assigns.
The returned pair is (raised error, registry afterwards): on error the
assignment was never reached, so the registry is unchanged. -/
def addR (g : Graph) (k : Label) (c : Obj) (strict : Bool) : Option Err × Graph :=
  if strict && (lookupG g k).isSome then (some .duplicateKeyError, g)
  else (none, updateG g k c)

/-- `Reporter.finalize(scenario)`: `self.graph['scenario'] = scenario`. -/
def finalizeR (g : Graph) (scenario : Obj) : Graph :=
  updateG g (.str "scenario") scenario

/-- `Reporter.disaggregate(var, new_dim, method, args)`.  Components of the
result: (raised error, registry afterwards, the value of the object passed
as `var` after the call).  Faithful to the statement order of the source:
the key is computed and `key._dims.append(new_dim)` runs before method
resolution, and since `from_str_or_key` passes a `Key` argument through as
the same object, that append mutates the caller's `Key` (third component);
the registry assignment happens last, and the stored task tuple holds the
very object `var` (hence the mutated key when `var` was a `Key`). -/
def disaggregateR (g : Graph) (var : Obj) (new_dim : String) (method : Obj)
    (args : List Obj) : Option Err × Graph × Obj :=
  match from_str_or_key var with
  | .error e => (some e, g, var)
  | .ok k =>
    let key' : Key := ⟨k.name, k.dims ++ [new_dim]⟩
    let varAfter : Obj := match var with
      | .key _ => .key key'
      | v => v
    match resolve_method method with
    | .error e => (some e, g, varAfter)
    | .ok m =>
      (none, updateG g (.key key') (.tuple (m :: varAfter :: args)), varAfter)

mutual

/-- Modelled from the spec: the graph executor (§4.5); the source delegates
to `dask.threaded.get`, which is outside the repository.  A label (string or
`Key`) bound in the registry is resolved through its computation; alias
chains are chased with a visited list, failing fast with `cycleError` on a
revisit; an unbound label is a literal returned verbatim; an operation tuple
(callable first element) has each argument resolved first and the callable
is then applied; a list resolves each element; anything else is a literal.
`fuel` bounds task-tuple nesting so the model is total. -/
def sevalC (g : Graph) (fuel : Nat) (visited : List Label) (c : Obj) :
    Except Err Obj :=
  match c with
  | .str s =>
    if hv : Label.str s ∈ visited then .error .cycleError
    else if hl : (lookupG g (Label.str s)).isSome then
      sevalC g fuel (Label.str s :: visited) ((lookupG g (Label.str s)).get hl)
    else .ok (.str s)
  | .key k =>
    if hv : Label.key k ∈ visited then .error .cycleError
    else if hl : (lookupG g (Label.key k)).isSome then
      sevalC g fuel (Label.key k :: visited) ((lookupG g (Label.key k)).get hl)
    else .ok (.key k)
  | .tuple (f :: args) =>
    if callableB f then
      match fuel with
      | 0 => .error .depthExceeded
      | fuel' + 1 => Except.map (applyF f) (sevalArgs g fuel' args)
    else .ok (.tuple (f :: args))
  | .listv xs =>
    match fuel with
    | 0 => .error .depthExceeded
    | fuel' + 1 => Except.map Obj.listv (sevalArgs g fuel' xs)
  | c => .ok c
termination_by (fuel, boundLeft g visited, 0)
decreasing_by
· obtain ⟨c2, hl2⟩ := Option.isSome_iff_exists.mp hl
  have hmem : Label.str s ∈ keysOf g := by
    clear hv hl
    induction g with
    | nil => simp [lookupG] at hl2
    | cons p rest ih =>
      obtain ⟨k', v'⟩ := p
      by_cases hk : k' = Label.str s
      · simp [keysOf, hk]
      · simp only [lookupG, if_neg hk] at hl2
        simp only [keysOf, List.map_cons, List.mem_cons]
        exact Or.inr (ih hl2)
  have hss : ((keysOf g).toFinset \ (Label.str s :: visited).toFinset) ⊂
      ((keysOf g).toFinset \ visited.toFinset) := by
    rw [Finset.ssubset_def]
    constructor
    · intro x hx
      simp only [List.toFinset_cons, Finset.mem_sdiff, Finset.mem_insert,
        List.mem_toFinset] at hx ⊢
      exact ⟨hx.1, fun hxv => hx.2 (Or.inr hxv)⟩
    · intro hsub
      have h1 : Label.str s ∈ (keysOf g).toFinset \ visited.toFinset := by
        simp only [Finset.mem_sdiff, List.mem_toFinset]
        exact ⟨hmem, hv⟩
      have h2 := hsub h1
      simp [List.toFinset_cons, Finset.mem_sdiff, Finset.mem_insert] at h2
  exact Prod.Lex.right fuel (Prod.Lex.left _ _ (Finset.card_lt_card hss))
· obtain ⟨c2, hl2⟩ := Option.isSome_iff_exists.mp hl
  have hmem : Label.key k ∈ keysOf g := by
    clear hv hl
    induction g with
    | nil => simp [lookupG] at hl2
    | cons p rest ih =>
      obtain ⟨k', v'⟩ := p
      by_cases hk : k' = Label.key k
      · simp [keysOf, hk]
      · simp only [lookupG, if_neg hk] at hl2
        simp only [keysOf, List.map_cons, List.mem_cons]
        exact Or.inr (ih hl2)
  have hss : ((keysOf g).toFinset \ (Label.key k :: visited).toFinset) ⊂
      ((keysOf g).toFinset \ visited.toFinset) := by
    rw [Finset.ssubset_def]
    constructor
    · intro x hx
      simp only [List.toFinset_cons, Finset.mem_sdiff, Finset.mem_insert,
        List.mem_toFinset] at hx ⊢
      exact ⟨hx.1, fun hxv => hx.2 (Or.inr hxv)⟩
    · intro hsub
      have h1 : Label.key k ∈ (keysOf g).toFinset \ visited.toFinset := by
        simp only [Finset.mem_sdiff, List.mem_toFinset]
        exact ⟨hmem, hv⟩
      have h2 := hsub h1
      simp [List.toFinset_cons, Finset.mem_sdiff, Finset.mem_insert] at h2
  exact Prod.Lex.right fuel (Prod.Lex.left _ _ (Finset.card_lt_card hss))
· exact Prod.Lex.left _ _ (Nat.lt_succ_self _)
· exact Prod.Lex.left _ _ (Nat.lt_succ_self _)

/-- Resolve a list of task arguments left to right (modelled from the spec,
§4.5: each argument is resolved before the operation is invoked, failing
fast on the first error). -/
def sevalArgs (g : Graph) (fuel : Nat) (l : List Obj) : Except Err (List Obj) :=
  match l with
  | [] => .ok []
  | a :: rest =>
    Except.bind (sevalC g fuel [] a) (fun r =>
      Except.map (fun rs => r :: rs) (sevalArgs g fuel rest))
termination_by (fuel, boundLeft g [] + 1, l.length)
decreasing_by
· exact Prod.Lex.right fuel (Prod.Lex.left _ _ (Nat.lt_succ_self _))
· exact Prod.Lex.right fuel (Prod.Lex.right _ (Nat.lt_succ_self _))

end

/-- Fuel used by a `get` call: enough for the graphs in this development;
only task-tuple nesting consumes it. -/
def fuelG (g : Graph) : Nat := g.length + 1

/-- `Reporter.get(key)`: evaluate `key` against the registry (via the
executor model; the registry is never mutated by `get`). -/
def getR (g : Graph) (k : Label) : Except Err Obj :=
  sevalC g (fuelG g) [] (labObj k)

/-! ### Basic lemmas about labels and the registry -/

theorem objAsLabel_labObj (l : Label) : objAsLabel (labObj l) = some l := by
  cases l <;> rfl

theorem objAsLabel_eq_some : ∀ {c : Obj} {l : Label},
    objAsLabel c = some l → c = labObj l := by
  intro c l h
  cases c with
  | str s => simp [objAsLabel] at h; subst h; rfl
  | key k => simp [objAsLabel] at h; subst h; rfl
  | int n => simp [objAsLabel] at h
  | func f => simp [objAsLabel] at h
  | tuple t => simp [objAsLabel] at h
  | listv t => simp [objAsLabel] at h
  | app f a => simp [objAsLabel] at h

theorem lookupG_updateG_self (g : Graph) (k : Label) (v : Obj) :
    lookupG (updateG g k v) k = some v := by
  induction g with
  | nil => simp [updateG, lookupG]
  | cons p rest ih =>
    obtain ⟨k', v'⟩ := p
    by_cases hk : k' = k
    · simp [updateG, hk, lookupG]
    · simp [updateG, hk, lookupG, ih]

theorem lookupG_updateG_other (g : Graph) (k k2 : Label) (v : Obj)
    (h : k2 ≠ k) : lookupG (updateG g k v) k2 = lookupG g k2 := by
  have h2 : ¬ k = k2 := fun he => h he.symm
  induction g with
  | nil => simp [updateG, lookupG, h2]
  | cons p rest ih =>
    obtain ⟨k', v'⟩ := p
    by_cases hk : k' = k
    · subst hk
      simp [updateG, lookupG, h2]
    · by_cases hk2 : k' = k2
      · simp [updateG, lookupG, hk, hk2, h]
      · simp [updateG, lookupG, hk, hk2, ih]

theorem updateG_updateG (g : Graph) (k : Label) (v1 v2 : Obj) :
    updateG (updateG g k v1) k v2 = updateG g k v2 := by
  induction g with
  | nil => simp [updateG]
  | cons p rest ih =>
    obtain ⟨k', v'⟩ := p
    by_cases hk : k' = k
    · simp [updateG, hk]
    · simp [updateG, hk, ih]

/-! ### Step lemmas for the executor -/

theorem sevalC_visited (g : Graph) (fuel : Nat) (visited : List Label)
    (lab : Label) (h : lab ∈ visited) :
    sevalC g fuel visited (labObj lab) = .error .cycleError := by
  cases lab with
  | str s => rw [sevalC.eq_def]; simp [labObj, h]
  | key k => rw [sevalC.eq_def]; simp [labObj, h]

theorem sevalC_unbound (g : Graph) (fuel : Nat) (visited : List Label)
    (lab : Label) (hv : ¬ lab ∈ visited) (hl : lookupG g lab = none) :
    sevalC g fuel visited (labObj lab) = .ok (labObj lab) := by
  cases lab with
  | str s => rw [sevalC.eq_def]; simp [labObj, hv, hl]
  | key k => rw [sevalC.eq_def]; simp [labObj, hv, hl]

theorem sevalC_chase (g : Graph) (fuel : Nat) (visited : List Label)
    (lab : Label) (c2 : Obj) (hv : ¬ lab ∈ visited)
    (hl : lookupG g lab = some c2) :
    sevalC g fuel visited (labObj lab) = sevalC g fuel (lab :: visited) c2 := by
  cases lab with
  | str s => rw [sevalC.eq_def]; simp [labObj, hv, hl]
  | key k => rw [sevalC.eq_def]; simp [labObj, hv, hl]

theorem sevalC_nonlabel (g : Graph) (fuel : Nat) (c : Obj)
    (h : objAsLabel c = none) (v1 v2 : List Label) :
    sevalC g fuel v1 c = sevalC g fuel v2 c := by
  cases c with
  | str s => simp [objAsLabel] at h
  | key k => simp [objAsLabel] at h
  | int n =>
    conv_lhs => rw [sevalC.eq_def]
    conv_rhs => rw [sevalC.eq_def]
  | func f =>
    conv_lhs => rw [sevalC.eq_def]
    conv_rhs => rw [sevalC.eq_def]
  | app f rs =>
    conv_lhs => rw [sevalC.eq_def]
    conv_rhs => rw [sevalC.eq_def]
  | tuple t =>
    cases t with
    | nil =>
      conv_lhs => rw [sevalC.eq_def]
      conv_rhs => rw [sevalC.eq_def]
    | cons f args =>
      conv_lhs => rw [sevalC.eq_def]
      conv_rhs => rw [sevalC.eq_def]
  | listv t =>
    conv_lhs => rw [sevalC.eq_def]
    conv_rhs => rw [sevalC.eq_def]

theorem sevalC_int (g : Graph) (fuel : Nat) (visited : List Label) (n : Int) :
    sevalC g fuel visited (.int n) = .ok (.int n) := by
  rw [sevalC.eq_def]

theorem sevalC_func (g : Graph) (fuel : Nat) (visited : List Label) (f : String) :
    sevalC g fuel visited (.func f) = .ok (.func f) := by
  rw [sevalC.eq_def]

theorem sevalC_app (g : Graph) (fuel : Nat) (visited : List Label)
    (f : String) (rs : List Obj) :
    sevalC g fuel visited (.app f rs) = .ok (.app f rs) := by
  rw [sevalC.eq_def]

theorem sevalC_task (g : Graph) (fuel : Nat) (visited : List Label)
    (f : String) (args rs : List Obj) (h : sevalArgs g fuel args = .ok rs) :
    sevalC g (fuel + 1) visited (.tuple (.func f :: args)) = .ok (.app f rs) := by
  rw [sevalC.eq_def]
  simp [callableB, h, applyF, Except.map]

theorem sevalArgs_nil (g : Graph) (fuel : Nat) : sevalArgs g fuel [] = .ok [] := by
  rw [sevalArgs.eq_def]

theorem sevalArgs_cons (g : Graph) (fuel : Nat) (a : Obj) (rest : List Obj)
    (r : Obj) (rs : List Obj) (h1 : sevalC g fuel [] a = .ok r)
    (h2 : sevalArgs g fuel rest = .ok rs) :
    sevalArgs g fuel (a :: rest) = .ok (r :: rs) := by
  rw [sevalArgs.eq_def]
  simp [h1, h2, Except.bind, Except.map]

theorem lookupG_mem_keys (g : Graph) (lab : Label) (c : Obj)
    (h : lookupG g lab = some c) : lab ∈ keysOf g := by
  induction g with
  | nil => simp [lookupG] at h
  | cons p rest ih =>
    obtain ⟨k', v'⟩ := p
    by_cases hk : k' = lab
    · simp [keysOf, hk]
    · simp only [lookupG, if_neg hk] at h
      simp only [keysOf, List.map_cons, List.mem_cons]
      exact Or.inr (ih h)

theorem boundLeft_cons_lt (g : Graph) (lab : Label) (visited : List Label)
    (hmem : lab ∈ keysOf g) (hv : ¬ lab ∈ visited) :
    boundLeft g (lab :: visited) < boundLeft g visited := by
  have hss : ((keysOf g).toFinset \ (lab :: visited).toFinset) ⊂
      ((keysOf g).toFinset \ visited.toFinset) := by
    rw [Finset.ssubset_def]
    constructor
    · intro x hx
      simp only [List.toFinset_cons, Finset.mem_sdiff, Finset.mem_insert,
        List.mem_toFinset] at hx ⊢
      exact ⟨hx.1, fun hxv => hx.2 (Or.inr hxv)⟩
    · intro hsub
      have h1 : lab ∈ (keysOf g).toFinset \ visited.toFinset := by
        simp only [Finset.mem_sdiff, List.mem_toFinset]
        exact ⟨hmem, hv⟩
      have h2 := hsub h1
      simp [List.toFinset_cons, Finset.mem_sdiff, Finset.mem_insert] at h2
  unfold boundLeft
  exact Finset.card_lt_card hss

/-- Appending one more guarded label `L` to the visited list does not change
the result of resolution, provided `L` is bound to an alias for a label `M`
that is already on the visited list: the only divergence point is reaching
`L`, where the shorter list takes one extra chase step into `M` and then
also fails with `cycleError`. -/
theorem sevalC_snoc_guard (g : Graph) (L M : Label)
    (hLM : lookupG g L = some (labObj M)) :
    ∀ (n : Nat) (v : List Label) (c : Obj) (fuel : Nat),
      boundLeft g v ≤ n → M ∈ v →
      sevalC g fuel (v ++ [L]) c = sevalC g fuel v c := by
  intro n
  induction n using Nat.strong_induction_on with
  | _ n ih =>
    intro v c fuel hb hM
    rcases hoc : objAsLabel c with _ | lab
    · exact sevalC_nonlabel g fuel c hoc _ _
    · have hc : c = labObj lab := objAsLabel_eq_some hoc
      subst hc
      by_cases hlv : lab ∈ v
      · rw [sevalC_visited g fuel _ lab (List.mem_append_left _ hlv),
          sevalC_visited g fuel v lab hlv]
      · by_cases hlL : lab = L
        · subst hlL
          rw [sevalC_visited g fuel _ lab (by simp)]
          rw [sevalC_chase g fuel v lab (labObj M) hlv hLM,
            sevalC_visited g fuel _ M (List.mem_cons_of_mem _ hM)]
        · have hnv : ¬ lab ∈ v ++ [L] := by
            simp [List.mem_append, hlv, hlL]
          rcases hl2 : lookupG g lab with _ | c2
          · rw [sevalC_unbound g fuel _ lab hnv hl2,
              sevalC_unbound g fuel v lab hlv hl2]
          · rw [sevalC_chase g fuel _ lab c2 hnv hl2,
              sevalC_chase g fuel v lab c2 hlv hl2]
            have hmem := lookupG_mem_keys g lab c2 hl2
            have hlt : boundLeft g (lab :: v) < n :=
              Nat.lt_of_lt_of_le (boundLeft_cons_lt g lab v hmem hlv) hb
            have hrec := ih (boundLeft g (lab :: v)) hlt (lab :: v) c2 fuel
              (Nat.le_refl _) (List.mem_cons_of_mem _ hM)
            simpa [List.cons_append] using hrec

/-- A label bound to a plain integer resolves to that integer. -/
theorem getR_lit_int (g : Graph) (x : Label) (n : Int)
    (h : lookupG g x = some (.int n)) : getR g x = .ok (.int n) := by
  unfold getR
  rw [sevalC_chase g (fuelG g) [] x (.int n) (by simp) h]
  exact sevalC_int g (fuelG g) [x] n

/-! ### Claims -/

/-- C1: Strict-mode contract of `add` — after `add(x, v1)`, a second
`add(x, v2, strict=True)` raises the duplicate-key error (a `KeyError` in
the source), while `add(x, v2, strict=False)` succeeds and a subsequent
`get(x)` returns the new value; `add` with `strict=True` fails exactly when
the label is already present in the registry. -/
theorem claim_C1_strict_mode (g : Graph) (x : Label) (v1 v2 : Obj) (n : Int) :
    (addR (addR g x v1 false).2 x v2 true =
      (some .duplicateKeyError, (addR g x v1 false).2)) ∧
    ((addR (addR g x v1 false).2 x v2 false).1 = none) ∧
    getR (addR (addR g x v1 false).2 x (.int n) false).2 x = .ok (.int n) ∧
    (∀ (g' : Graph) (c : Obj),
      (addR g' x c true).1 = some .duplicateKeyError ↔ (lookupG g' x).isSome) := by
  refine ⟨?_, ?_, ?_, ?_⟩
  · have h1 : (addR g x v1 false).2 = updateG g x v1 := by simp [addR]
    rw [h1]
    simp [addR, lookupG_updateG_self]
  · simp [addR]
  · have h2 : (addR (addR g x v1 false).2 x (.int n) false).2
        = updateG ((addR g x v1 false).2) x (.int n) := by simp [addR]
    rw [h2]
    exact getR_lit_int _ x n (lookupG_updateG_self _ x (.int n))
  · intro g' c
    by_cases hs : (lookupG g' x).isSome
    · simp [addR, hs]
    · simp [addR, hs]

/-- Witness for C1 at a concrete registry and values. -/
theorem claim_C1_strict_mode_witness :
    addR (addR [] (Label.str "x") (.int 1) false).2 (Label.str "x") (.int 2)
        true =
      (some .duplicateKeyError, (addR [] (Label.str "x") (.int 1) false).2) ∧
    getR (addR (addR [] (Label.str "x") (.int 1) false).2 (Label.str "x")
        (.int 2) false).2 (Label.str "x") = .ok (.int 2) :=
  ⟨(claim_C1_strict_mode [] (Label.str "x") (.int 1) (.int 2) 2).1,
   (claim_C1_strict_mode [] (Label.str "x") (.int 1) (.int 2) 2).2.2.1⟩

/-- C8: Finalize frame and idempotence — `finalize(s)` sets exactly the
entry under the label `'scenario'` to `s`, leaves every other entry
unchanged, and re-binding overwrites: `finalize(s1)` then `finalize(s2)`
equals `finalize(s2)` alone on the same prior registry. -/
theorem claim_C8_finalize_frame (g : Graph) (s1 s2 : Obj) (k : Label) :
    lookupG (finalizeR g s1) (.str "scenario") = some s1 ∧
    (k ≠ .str "scenario" → lookupG (finalizeR g s1) k = lookupG g k) ∧
    finalizeR (finalizeR g s1) s2 = finalizeR g s2 :=
  ⟨lookupG_updateG_self g _ s1,
   fun hk => lookupG_updateG_other g _ k s1 hk,
   updateG_updateG g _ s1 s2⟩

/-- Witness for C8 at a concrete registry. -/
theorem claim_C8_finalize_frame_witness :
    lookupG (finalizeR [(Label.str "a", Obj.int 1)] (Obj.int 7)) (Label.str "a")
      = some (Obj.int 1) :=
  (claim_C8_finalize_frame [(Label.str "a", Obj.int 1)] (Obj.int 7) (Obj.int 8)
    (Label.str "a")).2.1 (by decide)

/-- C10: Atomicity of failing mutators — whenever `add` raises (strict
duplicate) or `disaggregate` raises (unparseable variable or unresolvable /
non-callable method), the registry afterwards is exactly the registry
before: the assignment statement is only reached on the success path. -/
theorem claim_C10_atomicity :
    (∀ (g : Graph) (k : Label) (c : Obj) (strict : Bool),
      (addR g k c strict).1.isSome → (addR g k c strict).2 = g) ∧
    (∀ (g : Graph) (var : Obj) (d : String) (method : Obj) (args : List Obj),
      (disaggregateR g var d method args).1.isSome →
        (disaggregateR g var d method args).2.1 = g) := by
  constructor
  · intro g k c strict h
    by_cases hc : (strict && (lookupG g k).isSome) = true
    · simp [addR, hc]
    · simp [addR, hc] at h
  · intro g var d method args h
    rcases hfs : from_str_or_key var with e | k
    · simp [disaggregateR, hfs]
    · rcases hrm : resolve_method method with e | m
      · simp [disaggregateR, hfs, hrm]
      · simp [disaggregateR, hfs, hrm] at h

/-- Witness for C10: a failing strict `add` and a failing `disaggregate`
each leave the concrete registry untouched. -/
theorem claim_C10_atomicity_witness :
    (addR [(Label.str "x", Obj.int 1)] (Label.str "x") (.int 2) true).2 =
      [(Label.str "x", Obj.int 1)] ∧
    (disaggregateR [(Label.str "x", Obj.int 1)] (.key ⟨"v", []⟩) "d" (.int 0)
        []).2.1 = [(Label.str "x", Obj.int 1)] :=
  ⟨claim_C10_atomicity.1 _ _ _ _ (by rfl),
   claim_C10_atomicity.2 _ _ _ _ _ (by rfl)⟩

/-- C2: Disaggregation binding — for a variable given as a `Key` or as a
string parseable to a `Key`, and a method that resolves to a callable `m`,
`disaggregate` binds the key with `new_dim` appended to the task tuple
`(m, var, *args)` (where `var` is the very object passed, hence the
appended key when `var` was a `Key`), and the binding is an unconditional
dict overwrite — `disaggregate` takes no `strict` flag, so the stored task
is found under the new key whatever the prior registry contents. -/
theorem claim_C2_disaggregate_binding (g : Graph) (k : Key) (d : String)
    (method m : Obj) (args : List Obj) (h : resolve_method method = .ok m) :
    ((disaggregateR g (.key k) d method args).1 = none ∧
      (disaggregateR g (.key k) d method args).2.1 =
        updateG g (.key ⟨k.name, k.dims ++ [d]⟩)
          (.tuple (m :: .key ⟨k.name, k.dims ++ [d]⟩ :: args)) ∧
      lookupG (disaggregateR g (.key k) d method args).2.1
          (.key ⟨k.name, k.dims ++ [d]⟩) =
        some (.tuple (m :: .key ⟨k.name, k.dims ++ [d]⟩ :: args))) ∧
    (∀ s : String,
      (disaggregateR g (.str s) d method args).1 = none ∧
      (disaggregateR g (.str s) d method args).2.1 =
        updateG g (.key ⟨(parseKey s).name, (parseKey s).dims ++ [d]⟩)
          (.tuple (m :: .str s :: args))) := by
  constructor
  · refine ⟨?_, ?_, ?_⟩ <;>
      simp [disaggregateR, from_str_or_key, h, lookupG_updateG_self]
  · intro s
    refine ⟨?_, ?_⟩ <;> simp [disaggregateR, from_str_or_key, h]

/-- Witness for C2 at a concrete key and callable method. -/
theorem claim_C2_disaggregate_binding_witness :
    (disaggregateR [] (.key ⟨"v", ["a"]⟩) "b" (.func "f") []).2.1 =
      updateG [] (.key ⟨"v", ["a", "b"]⟩)
        (.tuple [.func "f", .key ⟨"v", ["a", "b"]⟩]) :=
  ((claim_C2_disaggregate_binding [] ⟨"v", ["a"]⟩ "b" (.func "f") (.func "f")
    [] rfl).1).2.1

/-- C3: Disaggregation method resolution errors — with a parseable variable,
a string method with no `disaggregate_<method>` computation raises the
method-not-found error, and a non-string non-callable method raises the
invalid-method error; both are returned synchronously by the
`disaggregate` call itself (both are `ValueError`s in the source). -/
theorem claim_C3_method_errors (g : Graph) (var : Obj) (d : String)
    (args : List Obj) (k0 : Key) (hvar : from_str_or_key var = .ok k0) :
    (∀ s : String, getattr_computations ("disaggregate_" ++ s) = none →
      (disaggregateR g var d (.str s) args).1 = some .methodNotFoundError) ∧
    (∀ m : Obj, objIsStr m = false → callableB m = false →
      (disaggregateR g var d m args).1 = some .invalidMethodError) := by
  constructor
  · intro s hs
    simp [disaggregateR, hvar, resolve_method, hs]
  · intro m hms hmc
    have hrm : resolve_method m = .error .invalidMethodError := by
      cases m <;> simp_all [objIsStr, resolve_method, callableB]
    simp [disaggregateR, hvar, hrm]

/-- Witness for C3: the unknown method name `'nope'` and the non-callable
method `0`, at a concrete variable. -/
theorem claim_C3_method_errors_witness :
    (disaggregateR [] (.key ⟨"v", []⟩) "d" (.str "nope") []).1 =
      some .methodNotFoundError ∧
    (disaggregateR [] (.key ⟨"v", []⟩) "d" (.int 0) []).1 =
      some .invalidMethodError :=
  ⟨(claim_C3_method_errors [] (.key ⟨"v", []⟩) "d" [] ⟨"v", []⟩ rfl).1 "nope"
    rfl,
   (claim_C3_method_errors [] (.key ⟨"v", []⟩) "d" [] ⟨"v", []⟩ rfl).2 (.int 0)
    rfl rfl⟩

/-- C4 counterexample: disaggregating the key `v:d` along the
already-present dimension `d` does not fail with any error — in particular
no ValueError — and a binding for the duplicated-dimension key `v:d-d` is
added to the registry. -/
theorem counterexample_C4_duplicate_dim :
    (disaggregateR [] (.key ⟨"v", ["d"]⟩) "d" (.func "f") []).1 = none ∧
    lookupG (disaggregateR [] (.key ⟨"v", ["d"]⟩) "d" (.func "f") []).2.1
        (.key ⟨"v", ["d", "d"]⟩) =
      some (.tuple [.func "f", .key ⟨"v", ["d", "d"]⟩]) :=
  ⟨rfl, rfl⟩

/-- C4 amended: when `new_dim` is already among `var`'s dimensions,
`disaggregate` raises nothing; the dimension is appended anyway (the source
appends to `key._dims` directly, performing no duplicate check) and the
duplicated-dimension key is bound to the task. -/
theorem claim_C4_amended_duplicate_dim (g : Graph) (k : Key) (d : String)
    (hd : d ∈ k.dims) (method m : Obj) (args : List Obj)
    (h : resolve_method method = .ok m) :
    (disaggregateR g (.key k) d method args).1 = none ∧
    lookupG (disaggregateR g (.key k) d method args).2.1
        (.key ⟨k.name, k.dims ++ [d]⟩) =
      some (.tuple (m :: .key ⟨k.name, k.dims ++ [d]⟩ :: args)) := by
  constructor <;> simp [disaggregateR, from_str_or_key, h, lookupG_updateG_self]

/-- Witness for C4 amended: concrete duplicated dimension. -/
theorem claim_C4_amended_duplicate_dim_witness :
    (disaggregateR [] (.key ⟨"w", ["d"]⟩) "d" (.func "g") []).1 = none :=
  (claim_C4_amended_duplicate_dim [] ⟨"w", ["d"]⟩ "d" (by decide) (.func "g")
    (.func "g") [] rfl).1

/-- C9 counterexample: passing the `Key` object `v:a` as `var` to
`disaggregate` mutates it — after the call the object's dims are
`["a", "b"]`, which differ from the original `["a"]`. -/
theorem counterexample_C9_key_mutation :
    (disaggregateR [] (.key ⟨"v", ["a"]⟩) "b" (.func "f") []).2.2 =
      .key ⟨"v", ["a", "b"]⟩ ∧
    (⟨"v", ["a", "b"]⟩ : Key) ≠ ⟨"v", ["a"]⟩ :=
  ⟨rfl, by decide⟩

/-- C9 amended: `disaggregate` mutates a `Key` object passed as `var` in
place — `from_str_or_key` passes the object through and the dimension
append happens on that object (even when method resolution later fails), so
after the call `var`'s dims equal the original dims with `new_dim`
appended; a string `var` is left unchanged. -/
theorem claim_C9_amended_key_mutation (g : Graph) (k : Key) (d : String)
    (method : Obj) (args : List Obj) :
    (disaggregateR g (.key k) d method args).2.2 =
      .key ⟨k.name, k.dims ++ [d]⟩ ∧
    (∀ s : String, (disaggregateR g (.str s) d method args).2.2 = .str s) := by
  constructor
  · rcases hrm : resolve_method method with e | m <;>
      simp [disaggregateR, from_str_or_key, hrm]
  · intro s
    rcases hrm : resolve_method method with e | m <;>
      simp [disaggregateR, from_str_or_key, hrm]

/-- C5 counterexample: with `y` bound to the task `(op, 'z')` and `z` never
bound, `get('y')` does not raise any error — it succeeds, the unbound label
`'z'` being passed to the operation verbatim as a literal string — which
contradicts the claimed UnresolvedLabelError. -/
theorem counterexample_C5_forward_reference :
    getR [(Label.str "y", .tuple [.func "op", .str "z"])] (.str "y") =
      .ok (.app "op" [.str "z"]) := by
  unfold getR
  have hf : fuelG [(Label.str "y", Obj.tuple [Obj.func "op", Obj.str "z"])] =
      1 + 1 := rfl
  rw [hf]
  rw [sevalC_chase [(Label.str "y", Obj.tuple [Obj.func "op", Obj.str "z"])]
    (1 + 1) [] (Label.str "y") (.tuple [.func "op", .str "z"]) (by simp) rfl]
  exact sevalC_task _ 1 _ "op" [.str "z"] [.str "z"]
    (sevalArgs_cons _ 1 (.str "z") [] (.str "z") []
      (sevalC_unbound [(Label.str "y", Obj.tuple [Obj.func "op", Obj.str "z"])]
        1 [] (Label.str "z") (by simp) rfl)
      (sevalArgs_nil _ 1))

/-- C5 amended: `add` performs no validation of referenced labels (forward
references are permitted), and the missing binding does not raise at `get`
time either: an unbound referenced label resolves to itself as a literal
value (as in dask), not to an UnresolvedLabelError; after a later
`add('z', n)`, `get('y')` passes `z`'s bound value to the operation. -/
theorem claim_C5_amended_forward_reference (op : String) (n : Int) :
    ((addR [] (.str "y") (.tuple [.func op, .str "z"]) false).1 = none) ∧
    getR (addR [] (.str "y") (.tuple [.func op, .str "z"]) false).2
        (.str "y") = .ok (.app op [.str "z"]) ∧
    ((addR (addR [] (.str "y") (.tuple [.func op, .str "z"]) false).2
        (.str "z") (.int n) false).1 = none) ∧
    getR (addR (addR [] (.str "y") (.tuple [.func op, .str "z"]) false).2
        (.str "z") (.int n) false).2 (.str "y") = .ok (.app op [.int n]) := by
  have hg1 : (addR [] (.str "y") (.tuple [.func op, .str "z"]) false).2 =
      [(Label.str "y", .tuple [.func op, .str "z"])] := rfl
  have hg2 : (addR (addR [] (.str "y") (.tuple [.func op, .str "z"]) false).2
      (.str "z") (.int n) false).2 =
      [(Label.str "y", .tuple [.func op, .str "z"]),
       (Label.str "z", .int n)] := rfl
  refine ⟨rfl, ?_, rfl, ?_⟩
  · rw [hg1]
    unfold getR
    have hf : fuelG [(Label.str "y", Obj.tuple [Obj.func op, Obj.str "z"])] =
        1 + 1 := rfl
    rw [hf]
    rw [sevalC_chase [(Label.str "y", Obj.tuple [Obj.func op, Obj.str "z"])]
      (1 + 1) [] (Label.str "y") (.tuple [.func op, .str "z"]) (by simp) rfl]
    exact sevalC_task _ 1 _ op [.str "z"] [.str "z"]
      (sevalArgs_cons _ 1 (.str "z") [] (.str "z") []
        (sevalC_unbound [(Label.str "y", Obj.tuple [Obj.func op, Obj.str "z"])]
          1 [] (Label.str "z") (by simp) rfl)
        (sevalArgs_nil _ 1))
  · rw [hg2]
    unfold getR
    have hf2 : fuelG [(Label.str "y", Obj.tuple [Obj.func op, Obj.str "z"]),
        (Label.str "z", Obj.int n)] = 2 + 1 := rfl
    rw [hf2]
    rw [sevalC_chase [(Label.str "y", Obj.tuple [Obj.func op, Obj.str "z"]),
      (Label.str "z", Obj.int n)] (2 + 1) [] (Label.str "y")
      (.tuple [.func op, .str "z"]) (by simp) rfl]
    exact sevalC_task _ 2 _ op [.str "z"] [.int n]
      (sevalArgs_cons _ 2 (.str "z") [] (.int n) []
        ((sevalC_chase [(Label.str "y", Obj.tuple [Obj.func op, Obj.str "z"]),
          (Label.str "z", Obj.int n)] 2 [] (Label.str "z") (.int n) (by simp)
          rfl).trans (sevalC_int _ 2 _ n))
        (sevalArgs_nil _ 2))

/-- Walking an alias chain that closes back on a label already on the
visited list ends in the cycle error. -/
theorem sevalC_alias_cycle (g : Graph) (fuel : Nat) (l0 : Label) :
    ∀ (rest : List Label) (cur : Label) (v : List Label), l0 ∈ v →
      List.Chain (fun a b => lookupG g a = some (labObj b)) cur rest →
      lookupG g (rest.getLastD cur) = some (labObj l0) →
      sevalC g fuel v (labObj cur) = .error .cycleError := by
  intro rest
  induction rest with
  | nil =>
    intro cur v hl0 hch hback
    by_cases hcv : cur ∈ v
    · exact sevalC_visited g fuel v cur hcv
    · rw [sevalC_chase g fuel v cur (labObj l0) hcv (by simpa using hback)]
      exact sevalC_visited g fuel _ l0 (List.mem_cons_of_mem _ hl0)
  | cons b rest2 ih =>
    intro cur v hl0 hch hback
    rcases hch with _ | ⟨hcb, hch2⟩
    by_cases hcv : cur ∈ v
    · exact sevalC_visited g fuel v cur hcv
    · rw [sevalC_chase g fuel v cur (labObj b) hcv hcb]
      exact ih b (cur :: v) (List.mem_cons_of_mem _ hl0) hch2
        (by simpa only [List.getLastD_cons] using hback)

/-- C6: Cycle detection — for every registry containing a cycle of pure
aliases (`l0` aliased through the chain `rest` and back to `l0`; the
two-label case `add('p','q'); add('q','p')` is the instance `rest = [q]`),
`get(l0)` terminates (the executor is a total function) and raises the
cycle error rather than looping. -/
theorem claim_C6_cycle_detection (g : Graph) (l0 : Label) (rest : List Label)
    (hch : List.Chain (fun a b => lookupG g a = some (labObj b)) l0 rest)
    (hback : lookupG g (rest.getLastD l0) = some (labObj l0)) :
    getR g l0 = .error .cycleError := by
  unfold getR
  cases rest with
  | nil =>
    simp only [List.getLastD] at hback
    rw [sevalC_chase g (fuelG g) [] l0 (labObj l0) (by simp) hback]
    exact sevalC_visited g (fuelG g) [l0] l0 (by simp)
  | cons b rest2 =>
    rcases hch with _ | ⟨h0b, hch2⟩
    rw [sevalC_chase g (fuelG g) [] l0 (labObj b) (by simp) h0b]
    exact sevalC_alias_cycle g (fuelG g) l0 rest2 b [l0] (by simp) hch2
      (by simpa only [List.getLastD_cons] using hback)

/-- Witness for C6: the concrete two-label alias cycle
`add('p','q'); add('q','p'); get('p')`. -/
theorem claim_C6_cycle_detection_witness :
    getR [(Label.str "p", labObj (Label.str "q")),
      (Label.str "q", labObj (Label.str "p"))] (Label.str "p") =
      .error .cycleError :=
  claim_C6_cycle_detection _ _ [Label.str "q"]
    (List.Chain.cons rfl List.Chain.nil) rfl

/-- C7: Idempotent aliasing — whenever the registry binds label `L` to the
label `M` (an alias), `get(L)` returns the same value as `get(M)`; the
model's `get` is a pure function of the registry, so the equality holds for
every subsequent pair of calls as long as neither binding changes. -/
theorem claim_C7_idempotent_aliasing (g : Graph) (L M : Label)
    (h : lookupG g L = some (labObj M)) : getR g L = getR g M := by
  by_cases hLM : L = M
  · rw [hLM]
  · unfold getR
    rw [sevalC_chase g (fuelG g) [] L (labObj M) (by simp) h]
    have hML : ¬ M ∈ [L] := fun hm => hLM (List.mem_singleton.mp hm).symm
    rcases hM2 : lookupG g M with _ | c2
    · rw [sevalC_unbound g (fuelG g) [L] M hML hM2,
        sevalC_unbound g (fuelG g) [] M (by simp) hM2]
    · rw [sevalC_chase g (fuelG g) [L] M c2 hML hM2,
        sevalC_chase g (fuelG g) [] M c2 (by simp) hM2]
      exact sevalC_snoc_guard g L M h (boundLeft g [M]) [M] c2 (fuelG g)
        (Nat.le_refl _) (by simp)

/-- Witness for C7: a concrete alias of `L` to `M`, with `M` bound to a
literal. -/
theorem claim_C7_idempotent_aliasing_witness :
    getR [(Label.str "L", labObj (Label.str "M")), (Label.str "M", Obj.int 3)]
        (Label.str "L") =
      getR [(Label.str "L", labObj (Label.str "M")), (Label.str "M", Obj.int 3)]
        (Label.str "M") :=
  claim_C7_idempotent_aliasing _ _ _ rfl
